import Mathlib

/-!
Verification of the BACOP broken-access-control reconnaissance tool
(`src/main.py`).  The tool walks a local directory tree, mirrors every file
path onto a target URL space, issues one HTTP request per mirrored path and
reports the responses that pass the configured filter/matcher predicates.

Strings are modelled as `List Char`, Python integers as `ℤ`, Python sets of
integers as `Finset ℤ`.  Each definition below is a direct translation of the
correspondingly named Python function of `src/main.py`; the Python standard
library helpers it relies on (`str.strip`, `str.split`, `int`, ...) are
modelled first.  Whitespace and line boundaries follow the full Unicode sets
Python uses; letters and digits are taken as ASCII (`str.lower` and the
digits of `int()` are modelled on ASCII characters).
-/

/-- The characters treated as whitespace by Python's `str.strip()` and
`str.split()`: exactly those with `str.isspace()` true, i.e. `\t` `\n`
`\x0b` `\x0c` `\r`, the separators `\x1c`-`\x1f`, space, `\x85` (NEL),
`\xa0` (NBSP), `\u1680`, `\u2000`-`\u200a`, `\u2028`, `\u2029`,
`\u202f`, `\u205f` and `\u3000` (ideographic space). -/
def pyIsSpace (c : Char) : Bool :=
  c = ' ' ∨ c = '\t' ∨ c = '\n' ∨ c = '\x0b' ∨ c = '\x0c' ∨ c = '\r' ∨
  c = Char.ofNat 28 ∨ c = Char.ofNat 29 ∨ c = Char.ofNat 30 ∨ c = Char.ofNat 31 ∨
  c = Char.ofNat 133 ∨ c = Char.ofNat 160 ∨ c = Char.ofNat 5760 ∨
  (Char.ofNat 8192 ≤ c ∧ c ≤ Char.ofNat 8202) ∨
  c = Char.ofNat 8232 ∨ c = Char.ofNat 8233 ∨
  c = Char.ofNat 8239 ∨ c = Char.ofNat 8287 ∨ c = Char.ofNat 12288

/-- Python `s.strip()`: removes leading and trailing whitespace. -/
def pyStrip (s : List Char) : List Char :=
  ((s.dropWhile pyIsSpace).reverse.dropWhile pyIsSpace).reverse

/-- The whitespace stripped by `int()`, which differs from the `str` set:
`int()` accepts every `str.isspace()` character except the separators
`\x1c`-`\x1f` (`int('\x1c5')` raises `ValueError` while `int('\xa05')`
is `5`). -/
def pyIntIsSpace (c : Char) : Bool :=
  pyIsSpace c ∧ ¬(Char.ofNat 28 ≤ c ∧ c ≤ Char.ofNat 31)

/-- The whitespace stripping performed by `int()` itself. -/
def pyIntStrip (s : List Char) : List Char :=
  ((s.dropWhile pyIntIsSpace).reverse.dropWhile pyIntIsSpace).reverse

/-- Python `c.lower()` for a single ASCII character. -/
def pyToLower (c : Char) : Char :=
  if 'A' ≤ c ∧ c ≤ 'Z' then Char.ofNat (c.toNat + 32) else c

/-- Python `s.lower()` on ASCII text. -/
def pyLower (s : List Char) : List Char := s.map pyToLower

/-- Digit strings as accepted by Python's `int()` after the optional sign:
a nonempty run of decimal digits where single underscores may appear between
two digits.  `acc` is the value of the digits already consumed; the head of
the remaining input is either a digit or an underscore followed by a digit. -/
def pyDigitsCore (acc : Nat) : List Char → Option Nat
  | [] => some acc
  | '_' :: c :: rest =>
      if c.isDigit then pyDigitsCore (acc * 10 + (c.toNat - 48)) rest else none
  | '_' :: [] => none
  | c :: rest =>
      if c.isDigit then pyDigitsCore (acc * 10 + (c.toNat - 48)) rest else none

/-- The digit part of a Python integer literal (no sign, no surrounding
whitespace): nonempty, starts with a digit, single underscores only between
digits. -/
def pyDigits : List Char → Option Nat
  | [] => none
  | c :: rest => if c.isDigit then pyDigitsCore (c.toNat - 48) rest else none

/-- Python `int(s)` on an ASCII string: strips whitespace, accepts an optional
sign directly followed by the digits, raises `ValueError` (here: `none`)
otherwise. -/
def pyInt (s : List Char) : Option ℤ :=
  match pyIntStrip s with
  | '+' :: rest => (pyDigits rest).map Int.ofNat
  | '-' :: rest => (pyDigits rest).map (fun n => -(n : ℤ))
  | t => (pyDigits t).map Int.ofNat

/-- Result of `parse_range_list` (`src/main.py:37`): Python `None`, the
string `'all'`, or a set of integers. -/
inductive RangeResult where
  | none : RangeResult
  | all : RangeResult
  | ints (s : Finset ℤ) : RangeResult
  deriving DecidableEq

/-- The `start-end` branch of `parse_range_list`: `part.split('-')` must
unpack into exactly two pieces and both must parse as integers, otherwise a
`ValueError` is raised and the part is ignored. -/
def pyRangeSplit (part : List Char) : Option (ℤ × ℤ) :=
  match part.splitOn '-' with
  | [a, b] =>
      match pyInt a, pyInt b with
      | some x, some y => some (x, y)
      | _, _ => none
  | _ => none

/-- The loop body of `parse_range_list` over the comma-separated parts,
accumulating the result set `res`.  A part containing `'-'` contributes the
inclusive range `range(start, end+1)`; the part `'all'` (case-insensitively,
after stripping) returns the marker `'all'` at once; any other part
contributes `int(part)`; malformed parts are silently ignored. -/
def parseParts : List (List Char) → Finset ℤ → RangeResult
  | [], res => .ints res
  | p :: rest, res =>
      let part := pyStrip p
      if part.contains '-' then
        match pyRangeSplit part with
        | some (x, y) => parseParts rest (res ∪ Finset.Icc x y)
        | Option.none => parseParts rest res
      else if pyLower part = [ 'a', 'l', 'l' ] then
        .all
      else
        match pyInt part with
        | some n => parseParts rest (insert n res)
        | Option.none => parseParts rest res

/-- Model of `parse_range_list` (`src/main.py:37`): parses a string like
`"200,300-305,404"` into a set of integers; returns `None` when the input is
`None` or empty, and the marker `'all'` when a part is `all`. -/
def parse_range_list : Option (List Char) → RangeResult
  | Option.none => .none
  | some s => if s = [] then .none else parseParts (s.splitOn ',') ∅


/-!
The function `match_value` (`src/main.py:73`) dispatches on its `mode` string; the three
modes receive values and criteria of different Python types, so each mode is
modelled as its own function.  Each one starts with the `criteria is None`
check of the source.
-/

/-- Mode `'set'` of `match_value`, i.e. `match_value(value, criteria, 'set')`: `criteria` is the result of
`parse_range_list`; `None` gives `False`, the marker `'all'` gives `True`,
otherwise membership in the set. -/
def match_value_set (value : ℤ) : RangeResult → Bool
  | .none => false
  | .all => true
  | .ints s => decide (value ∈ s)

/-- Mode `'text'` of `match_value`, i.e. `match_value(value, criteria, 'text')`: substring containment
`criteria in value`; `criteria is None` gives `False`. -/
def match_value_text (value : List Char) : Option (List Char) → Bool
  | Option.none => false
  | some c => decide (c <:+: value)

/-- Mode `'comparator'` of `match_value`, i.e. `match_value(value, criteria, 'comparator')`: `criteria` is a string such
as `">100"` or `"<100"`; a plain integer string means equality, and a
`ValueError` from `int()` gives `False`. -/
def match_value_cmp (value : ℤ) : Option (List Char) → Bool
  | Option.none => false
  | some ('>' :: rest) =>
      match pyInt rest with
      | some n => decide (value > n)
      | Option.none => false
  | some ('<' :: rest) =>
      match pyInt rest with
      | some n => decide (value < n)
      | Option.none => false
  | some c =>
      match pyInt c with
      | some n => decide (value = n)
      | Option.none => false

/-- The metrics dictionary built by `process_request` (`src/main.py:180`). -/
structure Metrics where
  status : ℤ
  size : ℤ
  words : ℤ
  lines : ℤ
  duration : ℤ
  body : List Char
  deriving DecidableEq

/-- The two values of `-mmode` / `-fmode` (argparse restricts the choice to
`'or'` and `'and'`). -/
inductive Mode where
  | or : Mode
  | and : Mode
  deriving DecidableEq

/-- The option attributes read by the evaluation pipeline, after `main` has
run `parse_range_list` on the `c`/`l`/`w`/`s` options.  The `r` and `t`
options stay raw strings (`none` models Python `None`). -/
structure Options where
  mc : RangeResult
  ml : RangeResult
  mw : RangeResult
  ms : RangeResult
  mr : Option (List Char)
  mt : Option (List Char)
  mmode : Mode
  fc : RangeResult
  fl : RangeResult
  fw : RangeResult
  fs : RangeResult
  fr : Option (List Char)
  ft : Option (List Char)
  fmode : Mode
  deriving DecidableEq

/-- The `prefix` argument of `check_conditions`: `'m'` for matchers, `'f'`
for filters. -/
inductive Pfx where
  | m : Pfx
  | f : Pfx
  deriving DecidableEq

/-- Python truthiness of a `parse_range_list` result: `None` and the empty
set are falsy, `'all'` (a nonempty string) and nonempty sets are truthy. -/
def RangeResult.truthy : RangeResult → Bool
  | .none => false
  | .all => true
  | .ints s => decide (0 < s.card)

/-- Python truthiness of an optional string: `None` and `''` are falsy. -/
def strTruthy : Option (List Char) → Bool
  | Option.none => false
  | some s => !s.isEmpty

/-- Model of `getattr(options, prefix + 'c')`. -/
def Options.getC (o : Options) : Pfx → RangeResult
  | .m => o.mc
  | .f => o.fc

/-- Model of `getattr(options, prefix + 'l')`. -/
def Options.getL (o : Options) : Pfx → RangeResult
  | .m => o.ml
  | .f => o.fl

/-- Model of `getattr(options, prefix + 'w')`. -/
def Options.getW (o : Options) : Pfx → RangeResult
  | .m => o.mw
  | .f => o.fw

/-- Model of `getattr(options, prefix + 's')`. -/
def Options.getS (o : Options) : Pfx → RangeResult
  | .m => o.ms
  | .f => o.fs

/-- Model of `getattr(options, prefix + 'r')`. -/
def Options.getR (o : Options) : Pfx → Option (List Char)
  | .m => o.mr
  | .f => o.fr

/-- Model of `getattr(options, prefix + 't')`. -/
def Options.getT (o : Options) : Pfx → Option (List Char)
  | .m => o.mt
  | .f => o.ft

/-- Model of `getattr(options, prefix + 'mode')`. -/
def Options.getMode (o : Options) : Pfx → Mode
  | .m => o.mmode
  | .f => o.fmode

/-- The `checks` list built by `check_conditions` (`src/main.py:114`): one
entry per truthy option, in source order (status, lines, words, size, text,
time). -/
def checksList (metrics : Metrics) (options : Options) (pfx : Pfx) : List Bool :=
  (if (options.getC pfx).truthy then [match_value_set metrics.status (options.getC pfx)] else []) ++
  (if (options.getL pfx).truthy then [match_value_set metrics.lines (options.getL pfx)] else []) ++
  (if (options.getW pfx).truthy then [match_value_set metrics.words (options.getW pfx)] else []) ++
  (if (options.getS pfx).truthy then [match_value_set metrics.size (options.getS pfx)] else []) ++
  (if strTruthy (options.getR pfx) then [match_value_text metrics.body (options.getR pfx)] else []) ++
  (if strTruthy (options.getT pfx) then [match_value_cmp metrics.duration (options.getT pfx)] else [])

/-- Model of `check_conditions` (`src/main.py:104`): with no enabled checks, filters
give `False` and matchers give `True`; otherwise `any`/`all` of the checks
according to the mode. -/
def check_conditions (metrics : Metrics) (options : Options) (pfx : Pfx) : Bool :=
  let checks := checksList metrics options pfx
  if checks.isEmpty then
    match pfx with
    | .f => false
    | .m => true
  else
    match options.getMode pfx with
    | .or => checks.any id
    | .and => checks.all id

/-!
Metrics construction and the reporting decision of `process_request`
(`src/main.py:155`).  The HTTP response is a value (status code, raw content
bytes, decoded text); the elapsed wall-clock time of the request is a
parameter, a nonnegative rational number of seconds.
-/

/-- Python `text.split()` with no separator: maximal runs of non-whitespace
characters; no empty tokens.  `acc` holds the current token reversed. -/
def splitWsAux : List Char → List Char → List (List Char)
  | [], acc => if acc.isEmpty then [] else [acc.reverse]
  | c :: rest, acc =>
      if pyIsSpace c then
        if acc.isEmpty then splitWsAux rest [] else acc.reverse :: splitWsAux rest []
      else splitWsAux rest (c :: acc)

/-- Python `text.split()`. -/
def pySplitWs (s : List Char) : List (List Char) := splitWsAux s []

/-- The line boundaries recognised by Python `str.splitlines()`. -/
def isLineBreak (c : Char) : Bool :=
  c = '\n' ∨ c = '\r' ∨ c = '\x0b' ∨ c = '\x0c' ∨
  c = Char.ofNat 28 ∨ c = Char.ofNat 29 ∨ c = Char.ofNat 30 ∨
  c = Char.ofNat 133 ∨ c = Char.ofNat 8232 ∨ c = Char.ofNat 8233

/-- Python `text.splitlines()`: `\r\n` counts as a single boundary and a
terminal boundary produces no trailing empty line. -/
def splitLinesAux : List Char → List Char → List (List Char)
  | [], acc => if acc.isEmpty then [] else [acc.reverse]
  | '\r' :: '\n' :: rest, acc => acc.reverse :: splitLinesAux rest []
  | c :: rest, acc =>
      if isLineBreak c then acc.reverse :: splitLinesAux rest []
      else splitLinesAux rest (c :: acc)

/-- Python `text.splitlines()`. -/
def pySplitLines (s : List Char) : List (List Char) := splitLinesAux s []

/-- Python `int()` applied to a float (here a rational): truncation toward
zero. -/
def pyTrunc (q : ℚ) : ℤ := if 0 ≤ q then ⌊q⌋ else ⌈q⌉

/-- The fields of the `requests` response object that `process_request`
reads: `status_code`, the raw `content` bytes and the decoded `text`. -/
structure HttpResponse where
  status_code : ℤ
  content : List (Fin 256)
  text : List Char
  deriving DecidableEq

/-- The metrics dictionary built at `src/main.py:180`: status code, byte
size of the content, whitespace-separated word count, line count, elapsed
time in whole milliseconds (`int((time.time() - start_time) * 1000)`), and
the decoded body. -/
def buildMetrics (response : HttpResponse) (elapsed : ℚ) : Metrics :=
  { status := response.status_code
    size := (response.content.length : ℤ)
    words := ((pySplitWs response.text).length : ℤ)
    lines := ((pySplitLines response.text).length : ℤ)
    duration := pyTrunc (elapsed * 1000)
    body := response.text }

/-- Model of `has_filters` (`src/main.py:192`): Python truthiness of the six raw
filter attributes. -/
def has_filters (options : Options) : Bool :=
  options.fc.truthy || options.fl.truthy || options.fw.truthy ||
  options.fs.truthy || strTruthy options.fr || strTruthy options.ft

/-- The reporting decision of `process_request`: a response is filtered out
when some filter option is truthy and the filter conditions hold; otherwise
it is printed exactly when the matcher conditions hold. -/
def reports (metrics : Metrics) (options : Options) : Bool :=
  if has_filters options && check_conditions metrics options .f then false
  else check_conditions metrics options .m

/-- The colour categories used for the printed status (`src/main.py:205`). -/
inductive StatusColor where
  | success : StatusColor
  | info : StatusColor
  | warn : StatusColor
  | error : StatusColor
  | default : StatusColor
  deriving DecidableEq

/-- The `status_color` if/elif chain of `src/main.py:206`. -/
def statusColor (status : ℤ) : StatusColor :=
  if status = 200 ∨ status = 204 then .success
  else if status = 301 ∨ status = 302 ∨ status = 307 then .info
  else if status = 401 ∨ status = 403 then .warn
  else if 500 ≤ status then .error
  else .default

/-- Observable events of one scan: the HTTP request issued for a path, a
printed result line, or an error line on stderr. -/
inductive Event where
  | request (full_url : List Char) : Event
  | printResult (rel_path : List Char) (color : StatusColor)
      (status size words lines duration : ℤ) : Event
  | printError (full_url : List Char) : Event
  deriving DecidableEq

/-- What one call of `process_request` can run into: a response (with its
elapsed request time), a `requests.RequestException`, or any other
exception. -/
inductive Outcome where
  | ok (response : HttpResponse) (elapsed : ℚ) : Outcome
  | requestError : Outcome
  | otherError : Outcome

/-- Model of `process_request` (`src/main.py:155`) as the list of events it emits:
exactly one HTTP request is issued, then at most one line is printed.  A
`requests.RequestException` is swallowed silently (`src/main.py:221`); any
other exception prints an error line on stderr. -/
def process_request (full_url rel_path : List Char) (options : Options)
    (outcome : Outcome) : List Event :=
  Event.request full_url ::
  match outcome with
  | .ok response elapsed =>
      let metrics := buildMetrics response elapsed
      if reports metrics options then
        [Event.printResult rel_path (statusColor metrics.status)
          metrics.status metrics.size metrics.words metrics.lines metrics.duration]
      else []
  | .requestError => []
  | .otherError => [Event.printError full_url]

/-!
The directory walk of `main` (`src/main.py:293`).  A directory holds a list
of file names and an ordered forest of named subdirectories; `os.walk`
top-down yields the files of a directory before descending into its
subdirectories in order.  A file is identified by its path: the list of name
components from the scanned root down to the file name.  Joining the
components with `'/'` is exactly `os.path.relpath(...)` followed by
`.replace(os.sep, '/')`.
-/

mutual
inductive FTree where
  | node (files : List (List Char)) (subs : Forest) : FTree
inductive Forest where
  | nil : Forest
  | cons (dname : List Char) (t : FTree) (rest : Forest) : Forest
end

mutual
/-- The relative paths (component lists) of all files below a directory, in
`os.walk` top-down order. -/
def walkFiles : FTree → List (List (List Char))
  | .node files subs => files.map (fun f => [f]) ++ walkForest subs
/-- The paths of all files below a forest of named subdirectories. -/
def walkForest : Forest → List (List (List Char))
  | .nil => []
  | .cons dname t rest => (walkFiles t).map (fun p => dname :: p) ++ walkForest rest
end

mutual
/-- How many files of the tree have exactly the path `p` (1 on a well-formed
filesystem when the file exists, 0 otherwise). -/
def countFiles : FTree → List (List Char) → Nat
  | _, [] => 0
  | .node files _, f :: [] => files.count f
  | .node _ subs, d :: c :: p => countForest subs d (c :: p)
/-- How many files of the forest have path `p` inside the subdirectory named
`d`. -/
def countForest : Forest → List Char → List (List Char) → Nat
  | .nil, _, _ => 0
  | .cons dname t rest, d, p =>
      (if dname = d then countFiles t p else 0) + countForest rest d p
end

mutual
/-- Filesystem well-formedness: no name contains the separator `'/'`. -/
def treeValid : FTree → Prop
  | .node files subs => (∀ f ∈ files, ('/' : Char) ∉ f) ∧ forestValid subs
/-- Forest counterpart of `treeValid`. -/
def forestValid : Forest → Prop
  | .nil => True
  | .cons dname t rest => ('/' : Char) ∉ dname ∧ treeValid t ∧ forestValid rest
end

/-- A file path is valid when it is nonempty and no component contains
`'/'`. -/
def pathValid (p : List (List Char)) : Prop :=
  p ≠ [] ∧ ∀ c ∈ p, ('/' : Char) ∉ c

/-- Model of `os.path.join` of the components followed by `.replace(os.sep, '/')`:
joining with `'/'`. -/
def joinSlash : List (List Char) → List Char
  | [] => []
  | c :: [] => c
  | c :: rest => c ++ '/' :: joinSlash rest

/-- Python `url.rstrip('/')`: removes trailing `'/'` characters. -/
def pyRstripSlash (url : List Char) : List Char :=
  (url.reverse.dropWhile (fun c => c = '/')).reverse

/-- The mirrored URL `full_url = f"{args.url.rstrip('/')}/{rel_path}"` of `src/main.py:300`. -/
def full_url_of (url rel_path : List Char) : List Char :=
  pyRstripSlash url ++ '/' :: rel_path

/-- The URLs requested for a tree, one per walked file, in order. -/
def requestedUrls (url : List Char) (t : FTree) : List (List Char) :=
  (walkFiles t).map (fun p => full_url_of url (joinSlash p))

/-- The scan loop over an explicit list of walked paths: for each path, one
`process_request` call with the mirrored URL; `oc` assigns each path its
outcome. -/
def scanList (url : List Char) (options : Options)
    (paths : List (List (List Char)))
    (oc : List (List Char) → Outcome) : List Event :=
  paths.flatMap (fun p =>
    process_request (full_url_of url (joinSlash p)) (joinSlash p) options (oc p))

/-- The events of one whole scan of the tree (`src/main.py:293`). -/
def scanEvents (url : List Char) (options : Options) (t : FTree)
    (oc : List (List Char) → Outcome) : List Event :=
  scanList url options (walkFiles t) oc

/-- At least one check of the given kind is enabled: some option of the
group is truthy, i.e. the `checks` list of `check_conditions` is nonempty.
For `pfx = .f` this is exactly `has_filters`. -/
def hasEnabled (o : Options) (pfx : Pfx) : Bool :=
  (o.getC pfx).truthy || (o.getL pfx).truthy || (o.getW pfx).truthy ||
  (o.getS pfx).truthy || strTruthy (o.getR pfx) || strTruthy (o.getT pfx)

/-!  Helper lemmas about the shape of the `checks` list. -/

theorem optAny (b1 b2 b3 b4 b5 b6 v1 v2 v3 v4 v5 v6 : Bool) :
    ((if b1 then [v1] else []) ++ (if b2 then [v2] else []) ++
     (if b3 then [v3] else []) ++ (if b4 then [v4] else []) ++
     (if b5 then [v5] else []) ++ (if b6 then [v6] else [])).any id
    = (b1 && v1 || (b2 && v2 || (b3 && v3 || (b4 && v4 || (b5 && v5 || b6 && v6))))) := by
  cases b1 <;> cases b2 <;> cases b3 <;> cases b4 <;> cases b5 <;> cases b6 <;> simp

theorem optAll (b1 b2 b3 b4 b5 b6 v1 v2 v3 v4 v5 v6 : Bool) :
    ((if b1 then [v1] else []) ++ (if b2 then [v2] else []) ++
     (if b3 then [v3] else []) ++ (if b4 then [v4] else []) ++
     (if b5 then [v5] else []) ++ (if b6 then [v6] else [])).all id
    = ((!b1 || v1) && ((!b2 || v2) && ((!b3 || v3) && ((!b4 || v4) &&
       ((!b5 || v5) && (!b6 || v6)))))) := by
  cases b1 <;> cases b2 <;> cases b3 <;> cases b4 <;> cases b5 <;> cases b6 <;> simp

theorem optIsEmpty (b1 b2 b3 b4 b5 b6 v1 v2 v3 v4 v5 v6 : Bool) :
    ((if b1 then [v1] else []) ++ (if b2 then [v2] else []) ++
     (if b3 then [v3] else []) ++ (if b4 then [v4] else []) ++
     (if b5 then [v5] else []) ++ (if b6 then [v6] else [])).isEmpty
    = !(b1 || b2 || b3 || b4 || b5 || b6) := by
  cases b1 <;> cases b2 <;> cases b3 <;> cases b4 <;> cases b5 <;> cases b6 <;> simp

theorem checksList_any (m : Metrics) (o : Options) (pfx : Pfx) :
    (checksList m o pfx).any id
    = ((o.getC pfx).truthy && match_value_set m.status (o.getC pfx) ||
       ((o.getL pfx).truthy && match_value_set m.lines (o.getL pfx) ||
        ((o.getW pfx).truthy && match_value_set m.words (o.getW pfx) ||
         ((o.getS pfx).truthy && match_value_set m.size (o.getS pfx) ||
          (strTruthy (o.getR pfx) && match_value_text m.body (o.getR pfx) ||
           strTruthy (o.getT pfx) && match_value_cmp m.duration (o.getT pfx)))))) :=
  optAny _ _ _ _ _ _ _ _ _ _ _ _

theorem checksList_all (m : Metrics) (o : Options) (pfx : Pfx) :
    (checksList m o pfx).all id
    = ((!(o.getC pfx).truthy || match_value_set m.status (o.getC pfx)) &&
       ((!(o.getL pfx).truthy || match_value_set m.lines (o.getL pfx)) &&
        ((!(o.getW pfx).truthy || match_value_set m.words (o.getW pfx)) &&
         ((!(o.getS pfx).truthy || match_value_set m.size (o.getS pfx)) &&
          ((!strTruthy (o.getR pfx) || match_value_text m.body (o.getR pfx)) &&
           (!strTruthy (o.getT pfx) || match_value_cmp m.duration (o.getT pfx))))))) :=
  optAll _ _ _ _ _ _ _ _ _ _ _ _

theorem checksList_isEmpty (m : Metrics) (o : Options) (pfx : Pfx) :
    (checksList m o pfx).isEmpty = !hasEnabled o pfx :=
  optIsEmpty _ _ _ _ _ _ _ _ _ _ _ _

/-- For the filter group, `hasEnabled` is exactly the `has_filters`
expression of `src/main.py:192`. -/
theorem hasEnabled_f (o : Options) : hasEnabled o .f = has_filters o := rfl

/-! Concrete values used by the witnesses. -/

/-- A metrics dictionary as produced for a small 404 response. -/
def exMetrics : Metrics :=
  { status := 404, size := 10, words := 2, lines := 1, duration := 5,
    body := ('h' :: 'i' :: [] : List Char) }

/-- Options with a status matcher and a status filter set. -/
def exOptions : Options :=
  { mc := .ints {200, 204}, ml := .none, mw := .none, ms := .none,
    mr := Option.none, mt := Option.none, mmode := .and,
    fc := .ints {404}, fl := .none, fw := .none, fs := .none,
    fr := Option.none, ft := Option.none, fmode := .or }

/-- Options with every matcher and filter disabled. -/
def emptyOptions : Options :=
  { mc := .none, ml := .none, mw := .none, ms := .none,
    mr := Option.none, mt := Option.none, mmode := .and,
    fc := .none, fl := .none, fw := .none, fs := .none,
    fr := Option.none, ft := Option.none, fmode := .or }

/-- C1: a result line is printed if and only if (no filter option is active,
or the filter conditions evaluate to false on the response's metrics) and
the matcher conditions evaluate to true; a response whose active filter
conditions hold is never reported, regardless of the matcher outcome. -/
theorem reports_iff_match_not_filtered (m : Metrics) (o : Options) :
    (reports m o = true ↔
      ((has_filters o = false ∨ check_conditions m o .f = false) ∧
        check_conditions m o .m = true)) ∧
    (has_filters o = true → check_conditions m o .f = true →
      reports m o = false) := by
  unfold reports
  constructor
  · cases hf : has_filters o <;> cases hcf : check_conditions m o .f <;>
      cases hcm : check_conditions m o .m <;> simp
  · intro h1 h2
    simp [h1, h2]

/-- Witness for C1: `exMetrics` is a 404 response, `exOptions` filters
status 404, so it is not reported even though its matcher fails anyway. -/
theorem reports_iff_match_not_filtered_witness :
    reports exMetrics exOptions = false :=
  (reports_iff_match_not_filtered exMetrics exOptions).2 (by decide) (by decide)

/-- C6: the rendered status colour is a function of the status code alone:
success for 200/204, info for 301/302/307, warning for 401/403, error for
any status at least 500, default otherwise, earlier categories first. -/
theorem statusColor_cases (s : ℤ) :
    (statusColor s = .success ↔ s = 200 ∨ s = 204) ∧
    (statusColor s = .info ↔ s = 301 ∨ s = 302 ∨ s = 307) ∧
    (statusColor s = .warn ↔ s = 401 ∨ s = 403) ∧
    (statusColor s = .error ↔ 500 ≤ s) ∧
    (statusColor s = .default ↔
      ¬(s = 200 ∨ s = 204 ∨ s = 301 ∨ s = 302 ∨ s = 307 ∨
        s = 401 ∨ s = 403 ∨ 500 ≤ s)) := by
  unfold statusColor
  split_ifs with h1 h2 h3 h4 <;> refine ⟨?_, ?_, ?_, ?_, ?_⟩ <;> simp_all <;> omega

/-- C7: the evaluation pipeline is deterministic: equal metrics, options,
values and criteria give equal results of `check_conditions` and of the
three `match_value` modes. -/
theorem evaluation_deterministic (m1 m2 : Metrics) (o1 o2 : Options)
    (pfx : Pfx) (v1 v2 : ℤ) (b1 b2 : List Char) (c1 c2 : RangeResult)
    (s1 s2 : Option (List Char))
    (hm : m1 = m2) (ho : o1 = o2) (hv : v1 = v2) (hb : b1 = b2)
    (hc : c1 = c2) (hs : s1 = s2) :
    check_conditions m1 o1 pfx = check_conditions m2 o2 pfx ∧
    match_value_set v1 c1 = match_value_set v2 c2 ∧
    match_value_text b1 s1 = match_value_text b2 s2 ∧
    match_value_cmp v1 s1 = match_value_cmp v2 s2 := by
  subst hm; subst ho; subst hv; subst hb; subst hc; subst hs
  exact ⟨rfl, rfl, rfl, rfl⟩

/-- Witness for C7 at concrete inputs. -/
theorem evaluation_deterministic_witness :
    check_conditions exMetrics exOptions .m = check_conditions exMetrics exOptions .m ∧
    match_value_set 7 .all = match_value_set 7 .all ∧
    match_value_text ('x' :: []) Option.none = match_value_text ('x' :: []) Option.none ∧
    match_value_cmp 7 Option.none = match_value_cmp 7 Option.none :=
  evaluation_deterministic exMetrics exMetrics exOptions exOptions .m 7 7
    ('x' :: []) ('x' :: []) .all .all Option.none Option.none
    rfl rfl rfl rfl rfl rfl

/-- C8: with no matcher option enabled, `check_conditions` for prefix `'m'`
returns true; with no filter option set, `check_conditions` for prefix `'f'`
returns false and the filter stage is skipped, so reporting is decided by
the matchers alone. -/
theorem default_check_results (m : Metrics) (o : Options) :
    (hasEnabled o .m = false → check_conditions m o .m = true) ∧
    (has_filters o = false →
      check_conditions m o .f = false ∧
      reports m o = check_conditions m o .m) := by
  constructor
  · intro h
    simp [check_conditions, checksList_isEmpty, h]
  · intro h
    have hf : hasEnabled o .f = false := by rw [hasEnabled_f, h]
    refine ⟨?_, ?_⟩
    · simp [check_conditions, checksList_isEmpty, hf]
    · unfold reports
      rw [h]
      simp

/-- Witness for C8 with all options disabled. -/
theorem default_check_results_witness :
    check_conditions exMetrics emptyOptions .m = true ∧
    check_conditions exMetrics emptyOptions .f = false ∧
    reports exMetrics emptyOptions = check_conditions exMetrics emptyOptions .m :=
  ⟨(default_check_results exMetrics emptyOptions).1 (by decide),
   ((default_check_results exMetrics emptyOptions).2 (by decide)).1,
   ((default_check_results exMetrics emptyOptions).2 (by decide)).2⟩






/-- Options enabling only the status matcher (`-mc all`) with OR mode. -/
def exOptC2 : Options :=
  { mc := .all, ml := .none, mw := .none, ms := .none,
    mr := Option.none, mt := Option.none, mmode := .or,
    fc := .none, fl := .none, fw := .none, fs := .none,
    fr := Option.none, ft := Option.none, fmode := .or }

/-- C2: with at least one enabled check of the given kind, mode `'or'` makes
`check_conditions` true exactly when some enabled individual check (status,
lines, words, size, text, time) is true, and mode `'and'` exactly when all
enabled individual checks are true. -/
theorem check_conditions_composition (m : Metrics) (o : Options) (pfx : Pfx)
    (h : hasEnabled o pfx = true) :
    (o.getMode pfx = .or →
      (check_conditions m o pfx = true ↔
        ((o.getC pfx).truthy = true ∧ match_value_set m.status (o.getC pfx) = true) ∨
        ((o.getL pfx).truthy = true ∧ match_value_set m.lines (o.getL pfx) = true) ∨
        ((o.getW pfx).truthy = true ∧ match_value_set m.words (o.getW pfx) = true) ∨
        ((o.getS pfx).truthy = true ∧ match_value_set m.size (o.getS pfx) = true) ∨
        (strTruthy (o.getR pfx) = true ∧ match_value_text m.body (o.getR pfx) = true) ∨
        (strTruthy (o.getT pfx) = true ∧ match_value_cmp m.duration (o.getT pfx) = true))) ∧
    (o.getMode pfx = .and →
      (check_conditions m o pfx = true ↔
        ((o.getC pfx).truthy = true → match_value_set m.status (o.getC pfx) = true) ∧
        ((o.getL pfx).truthy = true → match_value_set m.lines (o.getL pfx) = true) ∧
        ((o.getW pfx).truthy = true → match_value_set m.words (o.getW pfx) = true) ∧
        ((o.getS pfx).truthy = true → match_value_set m.size (o.getS pfx) = true) ∧
        (strTruthy (o.getR pfx) = true → match_value_text m.body (o.getR pfx) = true) ∧
        (strTruthy (o.getT pfx) = true → match_value_cmp m.duration (o.getT pfx) = true))) := by
  have hne : (checksList m o pfx).isEmpty = false := by
    rw [checksList_isEmpty, h]
    rfl
  constructor <;> intro hm
  · have e : check_conditions m o pfx = (checksList m o pfx).any id := by
      simp [check_conditions, hne, hm]
    rw [e, checksList_any]
    simp [Bool.and_eq_true, Bool.or_eq_true]
  · have e : check_conditions m o pfx = (checksList m o pfx).all id := by
      simp [check_conditions, hne, hm]
    rw [e, checksList_all]
    simp [Bool.and_eq_true, Bool.or_eq_true, or_iff_not_imp_left, Bool.not_eq_false]

/-- Witness for C2: only the status matcher is enabled (`-mc all`, OR mode),
and the composition theorem instantiates to the disjunction. -/
theorem check_conditions_composition_witness :
    check_conditions exMetrics exOptC2 .m = true ↔
      ((exOptC2.getC .m).truthy = true ∧ match_value_set exMetrics.status (exOptC2.getC .m) = true) ∨
      ((exOptC2.getL .m).truthy = true ∧ match_value_set exMetrics.lines (exOptC2.getL .m) = true) ∨
      ((exOptC2.getW .m).truthy = true ∧ match_value_set exMetrics.words (exOptC2.getW .m) = true) ∨
      ((exOptC2.getS .m).truthy = true ∧ match_value_set exMetrics.size (exOptC2.getS .m) = true) ∨
      (strTruthy (exOptC2.getR .m) = true ∧ match_value_text exMetrics.body (exOptC2.getR .m) = true) ∨
      (strTruthy (exOptC2.getT .m) = true ∧ match_value_cmp exMetrics.duration (exOptC2.getT .m) = true) :=
  (check_conditions_composition exMetrics exOptC2 .m (by decide)).1 rfl

/-- A small concrete response for witnesses: 200, two content bytes,
body `"hi u\nx"`. -/
def exResponse : HttpResponse :=
  { status_code := 200, content := [104, 105],
    text := ('h' :: 'i' :: ' ' :: 'u' :: '\n' :: 'x' :: []) }

/-- C3: the metrics built from a response are exactly the status code, the
byte length of the content, the whitespace-token count of the text, the
line count of the text, the elapsed time in whole milliseconds, and the
text itself. -/
theorem buildMetrics_fields (r : HttpResponse) (q : ℚ) (h : 0 ≤ q) :
    (buildMetrics r q).status = r.status_code ∧
    (buildMetrics r q).size = (r.content.length : ℤ) ∧
    (buildMetrics r q).words = ((pySplitWs r.text).length : ℤ) ∧
    (buildMetrics r q).lines = ((pySplitLines r.text).length : ℤ) ∧
    (buildMetrics r q).duration = ⌊q * 1000⌋ ∧
    (buildMetrics r q).body = r.text := by
  refine ⟨rfl, rfl, rfl, rfl, ?_, rfl⟩
  show pyTrunc (q * 1000) = ⌊q * 1000⌋
  unfold pyTrunc
  rw [if_pos (mul_nonneg h (by norm_num))]

/-- Witness for C3 at a concrete response and elapsed time `1/2` second. -/
theorem buildMetrics_fields_witness :
    (buildMetrics exResponse (1/2)).status = exResponse.status_code ∧
    (buildMetrics exResponse (1/2)).size = (exResponse.content.length : ℤ) ∧
    (buildMetrics exResponse (1/2)).words = ((pySplitWs exResponse.text).length : ℤ) ∧
    (buildMetrics exResponse (1/2)).lines = ((pySplitLines exResponse.text).length : ℤ) ∧
    (buildMetrics exResponse (1/2)).duration = ⌊(1/2 : ℚ) * 1000⌋ ∧
    (buildMetrics exResponse (1/2)).body = exResponse.text :=
  buildMetrics_fields exResponse (1/2) (by norm_num)

/-- C10: a `requests.RequestException` makes `process_request` return after
the one issued request, with no result line and no error line, and the scan
goes on with the remaining paths unchanged. -/
theorem requestError_is_silent (url : List Char) (o : Options)
    (p : List (List Char)) (ps : List (List (List Char)))
    (oc : List (List Char) → Outcome) (h : oc p = .requestError) :
    process_request (full_url_of url (joinSlash p)) (joinSlash p) o (oc p)
      = [Event.request (full_url_of url (joinSlash p))] ∧
    scanList url o (p :: ps) oc
      = Event.request (full_url_of url (joinSlash p)) :: scanList url o ps oc := by
  constructor
  · rw [h]
    rfl
  · unfold scanList
    rw [List.flatMap_cons, h]
    rfl


/-- Witness for C10: a one-file scan where the request fails. -/
theorem requestError_is_silent_witness :
    process_request (full_url_of ('u' :: []) (joinSlash (('a' :: []) :: [])))
        (joinSlash (('a' :: []) :: [])) emptyOptions
        ((fun _ => Outcome.requestError) (('a' :: []) :: []))
      = [Event.request (full_url_of ('u' :: []) (joinSlash (('a' :: []) :: [])))] ∧
    scanList ('u' :: []) emptyOptions ((('a' :: []) :: []) :: []) (fun _ => Outcome.requestError)
      = Event.request (full_url_of ('u' :: []) (joinSlash (('a' :: []) :: [])))
          :: scanList ('u' :: []) emptyOptions [] (fun _ => Outcome.requestError) :=
  requestError_is_silent ('u' :: []) emptyOptions (('a' :: []) :: []) []
    (fun _ => Outcome.requestError) rfl

/-!  C9: characterization of `parse_range_list`. -/

/-- The set of integers the spec assigns to one comma-separated part: the
inclusive `start-end` range for a well-formed range part, the single integer
for a plain integer part, nothing for a malformed part. -/
def partSet (p : List Char) : Finset ℤ :=
  let q := pyStrip p
  if q.contains '-' then
    match pyRangeSplit q with
    | some (x, y) => Finset.Icc x y
    | Option.none => ∅
  else
    match pyInt q with
    | some n => {n}
    | Option.none => ∅

/-- The set the spec assigns to a list of parts: the union of the per-part
sets. -/
def rangeSpecSet (parts : List (List Char)) : Finset ℤ :=
  parts.foldr (fun p acc => partSet p ∪ acc) ∅

/-- A part whose lowercasing is `all` contains no hyphen, so it can only hit
the `'all'` branch of `parse_range_list`. -/
theorem all_no_hyphen (q : List Char)
    (h : pyLower q = 'a' :: 'l' :: 'l' :: []) : ('-' : Char) ∉ q := by
  cases q with
  | nil => simp [pyLower] at h
  | cons c1 t1 =>
    cases t1 with
    | nil => simp [pyLower] at h
    | cons c2 t2 =>
      cases t2 with
      | nil => simp [pyLower] at h
      | cons c3 t3 =>
        cases t3 with
        | cons c4 t4 => simp [pyLower] at h
        | nil =>
          simp only [pyLower, List.map_cons, List.map_nil, List.cons.injEq,
            and_true] at h
          obtain ⟨h1, h2, h3⟩ := h
          have n1 : c1 ≠ '-' := by rintro rfl; exact absurd h1 (by decide)
          have n2 : c2 ≠ '-' := by rintro rfl; exact absurd h2 (by decide)
          have n3 : c3 ≠ '-' := by rintro rfl; exact absurd h3 (by decide)
          simp only [List.mem_cons, List.not_mem_nil, or_false]
          rintro (e | e | e)
          · exact n1 e.symm
          · exact n2 e.symm
          · exact n3 e.symm

/-- The parts loop returns the marker `'all'` exactly when some part,
stripped and lowercased, is the word `all`. -/
theorem parseParts_all_iff (ps : List (List Char)) (acc : Finset ℤ) :
    parseParts ps acc = .all ↔
      ∃ p ∈ ps, pyLower (pyStrip p) = 'a' :: 'l' :: 'l' :: [] := by
  induction ps generalizing acc with
  | nil => simp [parseParts]
  | cons p rest ih =>
    by_cases hm : ('-' : Char) ∈ pyStrip p
    · have hnall : ¬(pyLower (pyStrip p) = 'a' :: 'l' :: 'l' :: []) :=
        fun hall => absurd hm (all_no_hyphen _ hall)
      cases hr : pyRangeSplit (pyStrip p) with
      | some xy =>
        obtain ⟨x, y⟩ := xy
        simp [parseParts, hm, hr, ih, hnall]
      | none => simp [parseParts, hm, hr, ih, hnall]
    · by_cases hall : pyLower (pyStrip p) = 'a' :: 'l' :: 'l' :: []
      · simp [parseParts, hm, hall]
      · cases hi : pyInt (pyStrip p) with
        | some n => simp [parseParts, hm, hall, hi, ih]
        | none => simp [parseParts, hm, hall, hi, ih]

/-- With no `all` part, the parts loop returns the accumulated set united
with the per-part sets. -/
theorem parseParts_ints : ∀ (ps : List (List Char)) (acc : Finset ℤ),
    (∀ p ∈ ps, ¬(pyLower (pyStrip p) = 'a' :: 'l' :: 'l' :: [])) →
    parseParts ps acc = .ints (acc ∪ rangeSpecSet ps) := by
  intro ps
  induction ps with
  | nil =>
    intro acc _
    simp [parseParts, rangeSpecSet]
  | cons p rest ih =>
    intro acc h
    have hp := h p (List.mem_cons_self p rest)
    have hrest : ∀ x ∈ rest, ¬(pyLower (pyStrip x) = 'a' :: 'l' :: 'l' :: []) :=
      fun x hx => h x (List.mem_cons_of_mem _ hx)
    have hspec : rangeSpecSet (p :: rest) = partSet p ∪ rangeSpecSet rest := rfl
    by_cases hm : ('-' : Char) ∈ pyStrip p
    · cases hr : pyRangeSplit (pyStrip p) with
      | some xy =>
        obtain ⟨x, y⟩ := xy
        have e1 : parseParts (p :: rest) acc = parseParts rest (acc ∪ Finset.Icc x y) := by
          simp [parseParts, hm, hr]
        have e2 : partSet p = Finset.Icc x y := by simp [partSet, hm, hr]
        rw [e1, ih _ hrest, hspec, e2, Finset.union_assoc]
      | none =>
        have e1 : parseParts (p :: rest) acc = parseParts rest acc := by
          simp [parseParts, hm, hr]
        have e2 : partSet p = ∅ := by simp [partSet, hm, hr]
        rw [e1, ih _ hrest, hspec, e2, Finset.empty_union]
    · cases hi : pyInt (pyStrip p) with
      | some n =>
        have e1 : parseParts (p :: rest) acc = parseParts rest (insert n acc) := by
          simp [parseParts, hm, hp, hi]
        have e2 : partSet p = {n} := by simp [partSet, hm, hi]
        have e3 : insert n acc ∪ rangeSpecSet rest = acc ∪ ({n} ∪ rangeSpecSet rest) := by
          ext a
          simp [Finset.mem_insert, Finset.mem_union]
          tauto
        rw [e1, ih _ hrest, hspec, e2, e3]
      | none =>
        have e1 : parseParts (p :: rest) acc = parseParts rest acc := by
          simp [parseParts, hm, hp, hi]
        have e2 : partSet p = ∅ := by simp [partSet, hm, hi]
        rw [e1, ih _ hrest, hspec, e2, Finset.empty_union]

/-- C9: `parse_range_list` returns `None` on `None` or empty input; returns
the marker `'all'` exactly when some comma-separated part (stripped) equals
`all` case-insensitively; otherwise returns the set of all integers given as
plain parts plus the integers of each inclusive `start-end` range, malformed
parts silently ignored. -/
theorem parse_range_list_characterization :
    parse_range_list Option.none = RangeResult.none ∧
    parse_range_list (some []) = RangeResult.none ∧
    ∀ s : List Char, s ≠ [] →
      (parse_range_list (some s) = .all ↔
        ∃ p ∈ s.splitOn ',', pyLower (pyStrip p) = 'a' :: 'l' :: 'l' :: []) ∧
      ((∀ p ∈ s.splitOn ',', ¬(pyLower (pyStrip p) = 'a' :: 'l' :: 'l' :: [])) →
        parse_range_list (some s) = .ints (rangeSpecSet (s.splitOn ','))) := by
  refine ⟨rfl, rfl, fun s hs => ⟨?_, ?_⟩⟩
  · rw [show parse_range_list (some s) = parseParts (s.splitOn ',') ∅ from by
      simp [parse_range_list, hs]]
    exact parseParts_all_iff _ _
  · intro h
    rw [show parse_range_list (some s) = parseParts (s.splitOn ',') ∅ from by
      simp [parse_range_list, hs]]
    rw [parseParts_ints _ _ h, Finset.empty_union]

/-- Witness for C9 on the input `"2,5-7"`. -/
theorem parse_range_list_characterization_witness :
    parse_range_list (some ('2' :: ',' :: '5' :: '-' :: '7' :: [])) =
      .ints (rangeSpecSet (('2' :: ',' :: '5' :: '-' :: '7' :: []).splitOn ',')) :=
  (parse_range_list_characterization.2.2 _ (by decide)).2 (by decide)

/-!  C4/C5: counting files, walked paths and requested URLs. -/

mutual
/-- Every walked path is nonempty. -/
theorem walkFiles_len : ∀ (t : FTree), ∀ q ∈ walkFiles t, 1 ≤ q.length
  | .node files subs => by
      intro q hq
      simp only [walkFiles] at hq
      rcases List.mem_append.mp hq with h | h
      · obtain ⟨f, hf, rfl⟩ := List.mem_map.mp h
        simp
      · have h2 := walkForest_len subs q h
        omega
/-- Every path walked below a subdirectory has at least two components. -/
theorem walkForest_len : ∀ (fo : Forest), ∀ q ∈ walkForest fo, 2 ≤ q.length
  | .nil => by
      intro q hq
      simp [walkForest] at hq
  | .cons dname t rest => by
      intro q hq
      simp only [walkForest] at hq
      rcases List.mem_append.mp hq with h | h
      · obtain ⟨p, hp, rfl⟩ := List.mem_map.mp h
        have h1 := walkFiles_len t p hp
        simp only [List.length_cons]
        omega
      · exact walkForest_len rest q h
end

mutual
/-- On a well-formed tree, every component of every walked path is free of
`'/'`. -/
theorem walkFiles_valid : ∀ (t : FTree), treeValid t →
    ∀ q ∈ walkFiles t, ∀ c ∈ q, ('/' : Char) ∉ c
  | .node files subs => by
      intro hv q hq c hc
      simp only [treeValid] at hv
      simp only [walkFiles] at hq
      rcases List.mem_append.mp hq with h | h
      · obtain ⟨f, hf, rfl⟩ := List.mem_map.mp h
        rcases List.mem_singleton.mp hc with rfl
        exact hv.1 c hf
      · exact walkForest_valid subs hv.2 q h c hc
/-- Forest counterpart of `walkFiles_valid`. -/
theorem walkForest_valid : ∀ (fo : Forest), forestValid fo →
    ∀ q ∈ walkForest fo, ∀ c ∈ q, ('/' : Char) ∉ c
  | .nil => by
      intro _ q hq
      simp [walkForest] at hq
  | .cons dname t rest => by
      intro hv q hq c hc
      simp only [forestValid] at hv
      simp only [walkForest] at hq
      rcases List.mem_append.mp hq with h | h
      · obtain ⟨p, hp, rfl⟩ := List.mem_map.mp h
        rcases List.mem_cons.mp hc with rfl | hc2
        · exact hv.1
        · exact walkFiles_valid t hv.2.1 p hp c hc2
      · exact walkForest_valid rest hv.2.2 q h c hc
end

/-- Counting an image under an injective map. -/
theorem count_map_inj {α β : Type} [BEq α] [LawfulBEq α] [BEq β] [LawfulBEq β]
    (l : List α) (f : α → β) (hf : Function.Injective f) (x : α) :
    (l.map f).count (f x) = l.count x := by
  rw [List.count_eq_countP, List.count_eq_countP, List.countP_map]
  apply List.countP_congr
  intro a _
  simp [Function.comp, hf.eq_iff]

mutual
/-- The walk yields each file path as often as the tree holds a file at that
path. -/
theorem walkFiles_count : ∀ (t : FTree) (p : List (List Char)),
    (walkFiles t).count p = countFiles t p
  | .node files subs, p => by
      simp only [walkFiles]
      rw [List.count_append]
      cases p with
      | nil =>
        have h1 : ([] : List (List Char)) ∉ files.map (fun f => [f]) := by simp
        have h2 : ([] : List (List Char)) ∉ walkForest subs := by
          intro hmem
          have := walkForest_len subs [] hmem
          simp at this
        rw [List.count_eq_zero_of_not_mem h1, List.count_eq_zero_of_not_mem h2]
        rfl
      | cons d p1 =>
        cases p1 with
        | nil =>
          have h2 : [d] ∉ walkForest subs := by
            intro hmem
            have := walkForest_len subs [d] hmem
            simp at this
          have hinj : Function.Injective (fun f : List Char => [f]) := by
            intro a b hab
            simpa using hab
          have h1 : (files.map (fun f => [f])).count [d] = files.count d :=
            count_map_inj files _ hinj d
          rw [List.count_eq_zero_of_not_mem h2, h1]
          rfl
        | cons c p2 =>
          have h1 : (d :: c :: p2) ∉ files.map (fun f => [f]) := by simp
          rw [List.count_eq_zero_of_not_mem h1, walkForest_count subs d (c :: p2)]
          simp [countFiles]
/-- Forest counterpart of `walkFiles_count`. -/
theorem walkForest_count : ∀ (fo : Forest) (d : List Char) (q : List (List Char)),
    (walkForest fo).count (d :: q) = countForest fo d q
  | .nil, d, q => by simp [walkForest, countForest]
  | .cons dname t rest, d, q => by
      simp only [walkForest]
      rw [List.count_append, walkForest_count rest d q]
      by_cases hd : dname = d
      · subst hd
        have hinj : Function.Injective (fun p : List (List Char) => dname :: p) := by
          intro a b hab
          simpa using hab
        have h1 : ((walkFiles t).map (fun p => dname :: p)).count (dname :: q)
            = (walkFiles t).count q :=
          count_map_inj (walkFiles t) _ hinj q
        rw [h1, walkFiles_count t q]
        simp [countForest]
      · have h1 : (d :: q) ∉ (walkFiles t).map (fun p => dname :: p) := by
          intro hmem
          obtain ⟨p, _, he⟩ := List.mem_map.mp hmem
          simp only [List.cons.injEq] at he
          exact hd he.1
        rw [List.count_eq_zero_of_not_mem h1]
        simp [countForest, hd]
end

/-- Cancellation around the first separator: if neither prefix holds a
`'/'`, equal joined strings have equal prefixes and equal tails. -/
theorem append_slash_inj : ∀ (a b s t : List Char), ('/' : Char) ∉ a →
    ('/' : Char) ∉ b → a ++ '/' :: s = b ++ '/' :: t → a = b ∧ s = t := by
  intro a
  induction a with
  | nil =>
    intro b s t _ hb h
    cases b with
    | nil => simpa using h
    | cons x xs =>
      simp only [List.nil_append, List.cons_append, List.cons.injEq] at h
      obtain ⟨rfl, -⟩ := h
      exact absurd (List.mem_cons_self _ _) hb
  | cons x xs ih =>
    intro b s t ha hb h
    cases b with
    | nil =>
      simp only [List.nil_append, List.cons_append, List.cons.injEq] at h
      obtain ⟨he, -⟩ := h
      rw [← he] at ha
      exact absurd (List.mem_cons_self _ _) ha
    | cons y ys =>
      simp only [List.cons_append, List.cons.injEq] at h
      obtain ⟨rfl, h2⟩ := h
      have ha2 : ('/' : Char) ∉ xs := fun hm => ha (List.mem_cons_of_mem _ hm)
      have hb2 : ('/' : Char) ∉ ys := fun hm => hb (List.mem_cons_of_mem _ hm)
      obtain ⟨rfl, rfl⟩ := ih ys s t ha2 hb2 h2
      exact ⟨rfl, rfl⟩

/-- The function `joinSlash` is injective on valid paths. -/
theorem joinSlash_inj : ∀ (p q : List (List Char)), pathValid p → pathValid q →
    joinSlash p = joinSlash q → p = q := by
  intro p
  induction p with
  | nil =>
    intro q hp _ _
    exact absurd rfl hp.1
  | cons a p1 ih =>
    intro q hp hq h
    cases q with
    | nil => exact absurd rfl hq.1
    | cons b q1 =>
      cases p1 with
      | nil =>
        cases q1 with
        | nil =>
          simp only [joinSlash] at h
          rw [h]
        | cons c qs =>
          simp only [joinSlash] at h
          have hmem : ('/' : Char) ∈ a := by
            rw [h]
            exact List.mem_append_right _ (List.mem_cons_self _ _)
          exact absurd hmem (hp.2 a (List.mem_cons_self _ _))
      | cons c ps =>
        cases q1 with
        | nil =>
          simp only [joinSlash] at h
          have hmem : ('/' : Char) ∈ b := by
            rw [← h]
            exact List.mem_append_right _ (List.mem_cons_self _ _)
          exact absurd hmem (hq.2 b (List.mem_cons_self _ _))
        | cons d qs =>
          simp only [joinSlash] at h
          have ha : ('/' : Char) ∉ a := hp.2 a (List.mem_cons_self _ _)
          have hb : ('/' : Char) ∉ b := hq.2 b (List.mem_cons_self _ _)
          obtain ⟨rfl, h2⟩ := append_slash_inj a b _ _ ha hb h
          have hpv : pathValid (c :: ps) :=
            ⟨by simp, fun x hx => hp.2 x (List.mem_cons_of_mem _ hx)⟩
          have hqv : pathValid (d :: qs) :=
            ⟨by simp, fun x hx => hq.2 x (List.mem_cons_of_mem _ hx)⟩
          rw [ih (d :: qs) hpv hqv h2]

/-- The map `full_url_of url` is injective in the relative path. -/
theorem full_url_of_inj (url : List Char) {r1 r2 : List Char}
    (h : full_url_of url r1 = full_url_of url r2) : r1 = r2 := by
  unfold full_url_of at h
  have h2 := List.append_cancel_left h
  simpa using h2

/-- Counting walked paths whose mirrored URL is the one of a valid path `p`
on a well-formed tree counts exactly the files at `p`. -/
theorem walk_countP_url (t : FTree) (url : List Char) (p : List (List Char))
    (hv : treeValid t) (hp : pathValid p) :
    (walkFiles t).countP
        (fun q => full_url_of url (joinSlash q) == full_url_of url (joinSlash p))
      = countFiles t p := by
  have step : ∀ q ∈ walkFiles t,
      ((full_url_of url (joinSlash q) == full_url_of url (joinSlash p)) = true ↔
        (q == p) = true) := by
    intro q hq
    by_cases he : q = p
    · subst he
      simp
    · have hqnil : q ≠ [] := by
        have h1 := walkFiles_len t q hq
        intro hq0
        rw [hq0] at h1
        simp at h1
      have hqv : pathValid q := ⟨hqnil, walkFiles_valid t hv q hq⟩
      have hne : full_url_of url (joinSlash q) ≠ full_url_of url (joinSlash p) := by
        intro hurl
        exact he (joinSlash_inj q p hqv hp (full_url_of_inj url hurl))
      simp [hne, he]
  rw [List.countP_congr step]
  rw [← List.count_eq_countP]
  exact walkFiles_count t p

/-- One `process_request` call issues exactly one request, for its own URL,
whatever the outcome. -/
theorem count_request_process (u rp : List Char) (o : Options) (oc : Outcome)
    (U : List Char) :
    (process_request u rp o oc).count (Event.request U)
      = if u = U then 1 else 0 := by
  have hhead : ((Event.request u : Event) == Event.request U)
      = (if u = U then true else false) := by
    by_cases h : u = U
    · subst h
      simp
    · simp [h]
  cases oc with
  | ok r e =>
    simp only [process_request]
    by_cases hrep : reports (buildMetrics r e) o = true
    · rw [if_pos hrep]
      rw [List.count_cons]
      simp only [List.count_singleton]
      by_cases h : u = U <;> simp [h]
    · rw [if_neg hrep]
      rw [List.count_cons]
      by_cases h : u = U <;> simp [h]
  | requestError =>
    simp only [process_request]
    rw [List.count_cons]
    by_cases h : u = U <;> simp [h]
  | otherError =>
    simp only [process_request]
    rw [List.count_cons]
    by_cases h : u = U <;> simp [h]

/-- Requests of one scan, counted per URL, over an explicit path list. -/
theorem count_request_scanList (url : List Char) (o : Options)
    (paths : List (List (List Char))) (oc : List (List Char) → Outcome)
    (p : List (List Char)) :
    (scanList url o paths oc).count (Event.request (full_url_of url (joinSlash p)))
      = paths.countP
          (fun q => full_url_of url (joinSlash q) == full_url_of url (joinSlash p)) := by
  induction paths with
  | nil => simp [scanList]
  | cons q rest ih =>
    unfold scanList
    rw [List.flatMap_cons, List.count_append]
    unfold scanList at ih
    rw [ih, count_request_process, List.countP_cons]
    by_cases h : full_url_of url (joinSlash q) = full_url_of url (joinSlash p)
    · simp [h]
      omega
    · simp [h]

/-- A concrete tree for witnesses: file `a` at the root and file `b` inside
subdirectory `d`. -/
def exTree : FTree :=
  .node (('a' :: []) :: [])
    (.cons ('d' :: []) (.node (('b' :: []) :: []) .nil) .nil)

/-- C4: the URL requested for a file of relative path `p` is the target URL
with trailing `'/'` stripped, then `'/'`, then the components of `p` joined
by `'/'` (the separator-replaced relative path); and on a well-formed tree
every file yields exactly one mirrored URL: each path occurs in the walk,
and each URL in the request list, as often as the tree holds a file there. -/
theorem mirrored_urls (t : FTree) (url : List Char) (p : List (List Char))
    (hv : treeValid t) (hp : pathValid p) :
    (walkFiles t).count p = countFiles t p ∧
    requestedUrls url t
      = (walkFiles t).map (fun q => pyRstripSlash url ++ '/' :: joinSlash q) ∧
    (requestedUrls url t).count (pyRstripSlash url ++ '/' :: joinSlash p)
      = countFiles t p := by
  refine ⟨walkFiles_count t p, rfl, ?_⟩
  show ((walkFiles t).map (fun q => full_url_of url (joinSlash q))).count
      (full_url_of url (joinSlash p)) = countFiles t p
  rw [List.count_eq_countP, List.countP_map]
  exact walk_countP_url t url p hv hp

/-- Witness for C4 on the two-file tree and target URL `"u/"`. -/
theorem mirrored_urls_witness :
    (walkFiles exTree).count (('d' :: []) :: ('b' :: []) :: [])
        = countFiles exTree (('d' :: []) :: ('b' :: []) :: []) ∧
    requestedUrls ('u' :: '/' :: []) exTree
      = (walkFiles exTree).map
          (fun q => pyRstripSlash ('u' :: '/' :: []) ++ '/' :: joinSlash q) ∧
    (requestedUrls ('u' :: '/' :: []) exTree).count
        (pyRstripSlash ('u' :: '/' :: []) ++ '/' :: joinSlash (('d' :: []) :: ('b' :: []) :: []))
      = countFiles exTree (('d' :: []) :: ('b' :: []) :: []) :=
  mirrored_urls exTree ('u' :: '/' :: []) (('d' :: []) :: ('b' :: []) :: [])
    (by simp only [exTree, treeValid, forestValid]; decide)
    (by unfold pathValid; decide)

/-- C5: for every valid path of a well-formed tree, the whole scan issues
exactly as many requests for its mirrored URL as the tree holds files at
that path — one for an existing file — whatever the outcomes are, so no
path is requested twice and a failed request is never retried. -/
theorem one_request_per_path (t : FTree) (url : List Char) (o : Options)
    (oc : List (List Char) → Outcome) (p : List (List Char))
    (hv : treeValid t) (hp : pathValid p) :
    (scanEvents url o t oc).count (Event.request (full_url_of url (joinSlash p)))
      = countFiles t p := by
  unfold scanEvents
  rw [count_request_scanList, walk_countP_url t url p hv hp]

/-- Witness for C5: in the two-file tree the root file `a` is requested
exactly once, even when every request fails. -/
theorem one_request_per_path_witness :
    (scanEvents ('u' :: []) emptyOptions exTree (fun _ => Outcome.requestError)).count
        (Event.request (full_url_of ('u' :: []) (joinSlash (('a' :: []) :: []))))
      = countFiles exTree (('a' :: []) :: []) :=
  one_request_per_path exTree ('u' :: []) emptyOptions (fun _ => Outcome.requestError)
    (('a' :: []) :: [])
    (by simp only [exTree, treeValid, forestValid]; decide)
    (by unfold pathValid; decide)
